import Mathlib

/-!
Verification of the `schedule_parser` table scanner (`src/main.rs`).

The program reads an XER-style export file line by line and decodes it into
a sequence of tables.  The whole parsing logic lives in
`TableIterator::next`, which we embed shallowly here: a line is a list of
characters, the remaining input is a list of lines, and one call of `next`
is a function from the remaining input to a result (a yielded `Table`
together with the lines left over, clean exhaustion, or a `panic` caused by
`Option::unwrap` on a `%T` line without a name field).
-/

namespace ScheduleParser

/-- One line of input text, as a sequence of characters. -/
abbrev Line := List Char

/-- The tab character, the field delimiter of the format. -/
def tab : Char := '\t'

/-- The `%T` table-start tag (`line.starts_with("%T")` in the source). -/
def tagT : Line := ['%', 'T']

/-- The `%F` header tag (never inspected by the code, part of the format). -/
def tagF : Line := ['%', 'F']

/-- The `%R` row tag (`line.starts_with("%R")` in the source). -/
def tagR : Line := ['%', 'R']

/-- The `%E` end-of-data tag (never inspected by the code, part of the format). -/
def tagE : Line := ['%', 'E']

/-- Convenience: build a `Line` from a string literal. -/
def strLine (s : String) : Line := s.toList

/-- Tab-delimited fields of a line (`line.split('\t')` in the source). -/
def fields (l : Line) : List Line := l.splitOn tab

/-- The `Table` struct of the source: a name, a header, and data rows. -/
structure Table where
  name : Line
  header : List Line
  rows : List (List Line)
deriving DecidableEq, Repr

/-- Result of one call to `TableIterator::next`.

`table t rest` is `Some(t)` with `rest` the lines still unconsumed in the
underlying reader; `exhausted` is `None`; `crashed` is the `panic` raised by
`.nth(1).unwrap()` when a `%T` line has no second field. -/
inductive ScanResult where
  | table : Table → List Line → ScanResult
  | exhausted : ScanResult
  | crashed : ScanResult
deriving DecidableEq, Repr

/-- One call of `TableIterator::next` on the remaining lines `ls`.

Faithful to the Rust iterator chain:
* `skip_while(|line| !line.starts_with("%T"))` drops lines until one starts
  with `%T`; if none is found the call returns `None`;
* the table name is `.split('\t').nth(1).unwrap()` of that line (panic when
  there is no second field);
* the next line — whatever it is — becomes the header (`fields` 1..);
* `take_while(|line| line.starts_with("%R"))` collects rows, and, as in
  Rust, also consumes (and discards) the first line failing the predicate,
  which is why the final `.drop 1`. -/
def next (ls : List Line) : ScanResult :=
  match ls.dropWhile (fun l => !(tagT.isPrefixOf l)) with
  | [] => ScanResult.exhausted
  | tline :: rest =>
    match (fields tline)[1]? with
    | none => ScanResult.crashed
    | some name =>
      match rest with
      | [] => ScanResult.exhausted
      | hline :: rest₂ =>
        ScanResult.table
          { name := name
            header := (fields hline).drop 1
            rows := (rest₂.takeWhile (fun l => tagR.isPrefixOf l)).map
              (fun l => (fields l).drop 1) }
          ((rest₂.dropWhile (fun l => tagR.isPrefixOf l)).drop 1)

/-- Outcome of driving the iterator to the end (the `for table in iter` loop
of `main`): the list of tables yielded, tagged by whether iteration finished
cleanly or aborted in a panic. -/
inductive ScanOutcome where
  | ok : List Table → ScanOutcome
  | crashed : List Table → ScanOutcome
deriving DecidableEq, Repr

/-- Prepend a yielded table to the outcome of the rest of the iteration. -/
def consOutcome (t : Table) : ScanOutcome → ScanOutcome
  | ScanOutcome.ok ts => ScanOutcome.ok (t :: ts)
  | ScanOutcome.crashed ts => ScanOutcome.crashed (t :: ts)

/-- A yielded table consumes at least the `%T` and header lines, so the
leftover input is strictly shorter. -/
theorem next_table_length {ls : List Line} {t : Table} {rest : List Line}
    (h : next ls = ScanResult.table t rest) : rest.length < ls.length := by
  unfold next at h
  split at h
  · exact absurd h (by simp)
  rename_i tline rest₁ hd
  split at h
  · exact absurd h (by simp)
  rename_i name hn
  split at h
  · exact absurd h (by simp)
  rename_i hline rest₂
  have hlen : (tline :: hline :: rest₂).length ≤ ls.length := by
    rw [← hd]; exact (List.dropWhile_sublist _).length_le
  simp only [ScanResult.table.injEq] at h
  have h2 : ((rest₂.dropWhile (fun l => tagR.isPrefixOf l)).drop 1) = rest := h.2
  have hr : rest.length ≤ rest₂.length := by
    rw [← h2]
    calc ((rest₂.dropWhile (fun l => tagR.isPrefixOf l)).drop 1).length
        ≤ (rest₂.dropWhile (fun l => tagR.isPrefixOf l)).length :=
          by rw [List.length_drop]; omega
      _ ≤ rest₂.length := (List.dropWhile_sublist _).length_le
  simp only [List.length_cons] at hlen
  omega

/-- Driving the iterator to exhaustion, collecting every yielded table. -/
def scanTables (ls : List Line) : ScanOutcome :=
  match h : next ls with
  | ScanResult.exhausted => ScanOutcome.ok []
  | ScanResult.crashed => ScanOutcome.crashed []
  | ScanResult.table t rest => consOutcome t (scanTables rest)
termination_by ls.length
decreasing_by exact next_table_length h

theorem scanTables_eq (ls : List Line) :
    scanTables ls =
      match next ls with
      | ScanResult.exhausted => ScanOutcome.ok []
      | ScanResult.crashed => ScanOutcome.crashed []
      | ScanResult.table t rest => consOutcome t (scanTables rest) := by
  conv_lhs => unfold scanTables
  split <;> rename_i h <;> rw [h]

theorem scanTables_of_table (ls rest : List Line) (t : Table)
    (h : next ls = ScanResult.table t rest) :
    scanTables ls = consOutcome t (scanTables rest) := by
  rw [scanTables_eq, h]

theorem scanTables_of_exhausted (ls : List Line) (h : next ls = ScanResult.exhausted) :
    scanTables ls = ScanOutcome.ok [] := by
  rw [scanTables_eq, h]

theorem scanTables_of_crashed (ls : List Line) (h : next ls = ScanResult.crashed) :
    scanTables ls = ScanOutcome.crashed [] := by
  rw [scanTables_eq, h]

/-- The `skip_while` stage: a leading line that does not start with `%T` is
discarded, whatever it is. -/
theorem next_skip (l : Line) (ls : List Line) (h : tagT.isPrefixOf l = false) :
    next (l :: ls) = next ls := by
  unfold next
  rw [List.dropWhile_cons, h]
  simp

/-- Unfolding one call of `next` once the leading line starts with `%T`. -/
theorem next_found (tline : Line) (rest : List Line) (h : tagT.isPrefixOf tline = true) :
    next (tline :: rest) =
      match (fields tline)[1]? with
      | none => ScanResult.crashed
      | some name =>
        match rest with
        | [] => ScanResult.exhausted
        | hline :: rest₂ =>
          ScanResult.table
            { name := name
              header := (fields hline).drop 1
              rows := (rest₂.takeWhile (fun l => tagR.isPrefixOf l)).map
                (fun l => (fields l).drop 1) }
            ((rest₂.dropWhile (fun l => tagR.isPrefixOf l)).drop 1) := by
  unfold next
  rw [List.dropWhile_cons, h]
  simp only [Bool.not_true]
  rfl

/-- One full `%T`/header/rows group, with `stop` the first non-`%R` line:
the rows are exactly the `%R` lines' fields (taken verbatim, no width
check), and — as in the Rust `take_while` — the `stop` line itself is
consumed and discarded, leaving only `rest` for the following call. -/
theorem next_group (tline hline stop : Line) (rls rest : List Line) (name : Line)
    (ht : tagT.isPrefixOf tline = true) (hn : (fields tline)[1]? = some name)
    (hr : ∀ l ∈ rls, tagR.isPrefixOf l = true) (hs : tagR.isPrefixOf stop = false) :
    next (tline :: hline :: (rls ++ stop :: rest)) =
      ScanResult.table
        { name := name
          header := (fields hline).drop 1
          rows := rls.map (fun l => (fields l).drop 1) }
        rest := by
  rw [next_found _ _ ht, hn]
  have htake : (rls ++ stop :: rest).takeWhile (fun l => tagR.isPrefixOf l) = rls := by
    rw [List.takeWhile_append_of_pos hr, List.takeWhile_cons, hs]
    simp
  have hdrop : (rls ++ stop :: rest).dropWhile (fun l => tagR.isPrefixOf l) = stop :: rest := by
    rw [List.dropWhile_append_of_pos hr, List.dropWhile_cons, hs]
    simp
  simp [htake, hdrop]

/-- Like `next_group`, but when the rows run to the end of the input:
nothing is left for the following call. -/
theorem next_group_end (tline hline : Line) (rls : List Line) (name : Line)
    (ht : tagT.isPrefixOf tline = true) (hn : (fields tline)[1]? = some name)
    (hr : ∀ l ∈ rls, tagR.isPrefixOf l = true) :
    next (tline :: hline :: rls) =
      ScanResult.table
        { name := name
          header := (fields hline).drop 1
          rows := rls.map (fun l => (fields l).drop 1) }
        [] := by
  rw [next_found _ _ ht, hn]
  have htake : rls.takeWhile (fun l => tagR.isPrefixOf l) = rls :=
    List.takeWhile_eq_self_iff.mpr hr
  have hdrop : rls.dropWhile (fun l => tagR.isPrefixOf l) = [] :=
    List.dropWhile_eq_nil_iff.mpr hr
  simp [htake, hdrop]

/-- Join a tag and its fields with tab characters: one line of the format. -/
def encodeLine (tag : Line) (fs : List Line) : Line :=
  List.intercalate [tab] (tag :: fs)

/-- The line sequence of the round-trip property: a `%T` line with the name,
a `%F` line with the header fields, one `%R` line per row, and `%E`. -/
def encodeTable (name : Line) (header : List Line) (rows : List (List Line)) :
    List Line :=
  encodeLine tagT [name] :: encodeLine tagF header ::
    (rows.map (fun r => encodeLine tagR r) ++ [tagE])

theorem intercalate_tab_cons (a : Line) (fs : List Line) :
    List.intercalate [tab] (a :: fs) = a ++ (fs.map (fun f => tab :: f)).flatten := by
  induction fs generalizing a with
  | nil => simp [List.intercalate]
  | cons f fs ih =>
    simp only [List.intercalate] at ih ⊢
    rw [List.intersperse_cons_cons]
    simp [ih f]

/-- Every encoded line starts with its tag. -/
theorem prefix_encodeLine (tag : Line) (fs : List Line) :
    tag.isPrefixOf (encodeLine tag fs) = true := by
  rw [ List.isPrefixOf_iff_prefix, encodeLine, intercalate_tab_cons]
  exact List.prefix_append _ _

/-- Splitting an encoded line on tabs recovers the tag and the fields, as
long as no field contains a tab itself. -/
theorem fields_encodeLine (tag : Line) (fs : List Line)
    (htag : tab ∉ tag) (hfs : ∀ f ∈ fs, tab ∉ f) :
    fields (encodeLine tag fs) = tag :: fs := by
  unfold fields encodeLine
  refine List.splitOn_intercalate (tag :: fs) tab ?_ (by simp)
  intro l hl
  rcases List.mem_cons.mp hl with rfl | h
  · exact htag
  · exact hfs l h

/-- C8 (amended): the scanner decodes an encoded table back to the original
triple (and nothing more), provided the name, the header fields and the row
values contain no tab character. -/
theorem c8_roundtrip_tabfree (name : Line) (header : List Line) (rows : List (List Line))
    (hname : tab ∉ name) (hheader : ∀ f ∈ header, tab ∉ f)
    (hrows : ∀ r ∈ rows, ∀ v ∈ r, tab ∉ v) :
    scanTables (encodeTable name header rows) =
      ScanOutcome.ok [{ name := name, header := header, rows := rows }] := by
  have hn : (fields (encodeLine tagT [name]))[1]? = some name := by
    rw [fields_encodeLine tagT [name] (by decide) (by simpa using hname)]
    rfl
  have hh : (fields (encodeLine tagF header)).drop 1 = header := by
    rw [fields_encodeLine tagF header (by decide) hheader]
    rfl
  have hr : ∀ l ∈ rows.map (fun r => encodeLine tagR r), tagR.isPrefixOf l = true := by
    intro l hl
    rcases List.mem_map.mp hl with ⟨r, _, rfl⟩
    exact prefix_encodeLine tagR r
  have hrfields :
      (rows.map (fun r => encodeLine tagR r)).map (fun l => (fields l).drop 1) = rows := by
    rw [List.map_map]
    have hcongr : ∀ r ∈ rows,
        ((fun l => (fields l).drop 1) ∘ (fun r => encodeLine tagR r)) r = id r := by
      intro r hrm
      simp only [Function.comp, id]
      rw [fields_encodeLine tagR r (by decide) (hrows r hrm)]
      rfl
    rw [List.map_congr_left hcongr, List.map_id]
  have h1 : next (encodeTable name header rows) =
      ScanResult.table { name := name, header := header, rows := rows } [] := by
    unfold encodeTable
    have hg := next_group (encodeLine tagT [name]) (encodeLine tagF header) tagE
      (rows.map (fun r => encodeLine tagR r)) [] name
      (prefix_encodeLine tagT [name]) hn hr (by decide)
    rw [hg, hh, hrfields]
  rw [scanTables_of_table _ _ _ h1, scanTables_of_exhausted [] rfl]
  rfl

/-- A line whose second character is not `T` does not start with `%T`. -/
theorem not_prefixT_of_second {c : Char} (hc : c ≠ 'T') (r : Line) :
    tagT.isPrefixOf ('%' :: c :: r) = false := by
  simp [tagT, List.isPrefixOf, hc, Ne.symm hc]

/-- The first line surviving `dropWhile` fails the predicate. -/
theorem dropWhile_head_false {α : Type} {p : α → Bool} {ls l : List α} {a : α}
    (h : ls.dropWhile p = a :: l) : p a = false := by
  induction ls with
  | nil => simp at h
  | cons x xs ih =>
    rw [List.dropWhile_cons] at h
    by_cases hx : p x = true
    · rw [if_pos hx] at h
      exact ih h
    · rw [if_neg hx] at h
      cases h
      simpa using hx

/-- Lines that do not start with `%T` in front of the input are invisible
to a call of `next`. -/
theorem next_append_skip (pre ls : List Line)
    (h : ∀ l ∈ pre, tagT.isPrefixOf l = false) : next (pre ++ ls) = next ls := by
  unfold next
  rw [List.dropWhile_append_of_pos]
  intro l hl
  simp [h l hl]


/-! ## Settled claims -/

/-- C1: on the spec's own concrete scenario (§8) — a preamble line, the
well-formed group `TABLE1` with two rows, the well-formed group `TABLE2`
with no rows, then `%E` — the program yields only `TABLE1`.  `TABLE2` is
silently dropped, because the row `take_while` of the first call consumes
`TABLE2`'s `%T` line, so the claim "exactly n tables in source order" fails
for n = 2. -/
theorem c1_spec_scenario_drops_second_table :
    scanTables [strLine "ERMHDR\t19.12", strLine "%T\tTABLE1",
        strLine "%F\tcolumn_1\tcolumn_2\tcolumn_3",
        strLine "%R\t1\t2\t€", strLine "%R\t10\t2\t$",
        strLine "%T\tTABLE2", strLine "%F\tcolumn_1\tcolumn_2", strLine "%E"] =
      ScanOutcome.ok [Table.mk (strLine "TABLE1")
        [strLine "column_1", strLine "column_2", strLine "column_3"]
        [[strLine "1", strLine "2", strLine "€"],
          [strLine "10", strLine "2", strLine "$"]]] := by
  rw [scanTables_of_table _ [strLine "%F\tcolumn_1\tcolumn_2", strLine "%E"]
      (Table.mk (strLine "TABLE1")
        [strLine "column_1", strLine "column_2", strLine "column_3"]
        [[strLine "1", strLine "2", strLine "€"],
          [strLine "10", strLine "2", strLine "$"]]) (by decide),
    scanTables_of_exhausted _ (by decide)]
  rfl

/-- C2: after yielding a table, the line that stopped row collection (here
the next table's `%T\tB` line) has been consumed and discarded: the
remaining input is `[%F\th2, %E]`, not `[%T\tB, %F\th2, %E]`, contradicting
"stops ... without consuming that line". -/
theorem c2_stop_line_consumed :
    next [strLine "%T\tA", strLine "%F\th", strLine "%R\t1", strLine "%T\tB",
        strLine "%F\th2", strLine "%E"] =
      ScanResult.table (Table.mk (strLine "A") [strLine "h"] [[strLine "1"]])
        [strLine "%F\th2", strLine "%E"] := by
  decide

/-- C3 counterexample: a well-formed group placed after a `%E` line is still
yielded as a table, so scanning does not stop at the first `%E` line. -/
theorem c3_counterexample :
    scanTables [strLine "preamble", strLine "%E", strLine "%T\tX", strLine "%F\ta"] =
      ScanOutcome.ok [Table.mk (strLine "X") [strLine "a"] []] := by
  rw [scanTables_of_table _ [] (Table.mk (strLine "X") [strLine "a"] []) (by decide),
    scanTables_of_exhausted [] rfl]
  rfl

/-- C3 (amended): a `%E` line has no terminating effect — while searching
for a table start it is discarded like any other line not starting with
`%T`, and the scan of the remaining lines proceeds unchanged; scanning ends
only at end-of-input. -/
theorem c3_end_tag_not_special (r : Line) (ls : List Line) :
    scanTables (('%' :: 'E' :: r) :: ls) = scanTables ls := by
  rw [scanTables_eq (('%' :: 'E' :: r) :: ls), scanTables_eq ls,
    next_skip _ _ (not_prefixT_of_second (by decide) r)]

/-- C4 counterexample: after a consumed `%T` line, a missing following line
signals clean exhaustion (not a `MissingHeader` error), and a following
line that is not a `%F` line is consumed as the header anyway (a table is
yielded, its header taken from the `junk` line's fields). -/
theorem c4_counterexample :
    next [strLine "%T\tX"] = ScanResult.exhausted ∧
    next [strLine "%T\tX", strLine "junk\ta"] =
      ScanResult.table (Table.mk (strLine "X") [strLine "a"] []) [] := by
  decide

/-- C4 (amended): after a `%T` line carrying a name, the scanner signals
clean exhaustion when the following line is absent, and otherwise consumes
the following line as the header line without checking its tag, yielding a
table whose header is that line's fields from index 1 onward. -/
theorem c4_header_line_unchecked (tline name : Line)
    (ht : tagT.isPrefixOf tline = true) (hn : (fields tline)[1]? = some name) :
    next [tline] = ScanResult.exhausted ∧
    ∀ hline rest₂, ∃ rows rest₃,
      next (tline :: hline :: rest₂) =
        ScanResult.table (Table.mk name ((fields hline).drop 1) rows) rest₃ := by
  constructor
  · rw [next_found _ _ ht, hn]
  · intro hline rest₂
    exact ⟨(rest₂.takeWhile (fun l => tagR.isPrefixOf l)).map (fun l => (fields l).drop 1),
      (rest₂.dropWhile (fun l => tagR.isPrefixOf l)).drop 1, by rw [next_found _ _ ht, hn]⟩

theorem c4_witness :
    tagT.isPrefixOf (strLine "%T\tX") = true ∧
    (fields (strLine "%T\tX"))[1]? = some (strLine "X") ∧
    (next [strLine "%T\tX"] = ScanResult.exhausted ∧
      ∀ hline rest₂, ∃ rows rest₃,
        next (strLine "%T\tX" :: hline :: rest₂) =
          ScanResult.table (Table.mk (strLine "X") ((fields hline).drop 1) rows) rest₃) :=
  ⟨by decide, by decide, c4_header_line_unchecked (strLine "%T\tX") (strLine "X")
    (by decide) (by decide)⟩

/-- C5 counterexample: an input opening with a `%R` line before any `%T`
yields a table from the later group — the orphan row line is silently
discarded and no `OrphanRow` error is raised. -/
theorem c5_counterexample :
    next [strLine "%R\t1", strLine "%T\tX", strLine "%F\ta"] =
      ScanResult.table (Table.mk (strLine "X") [strLine "a"] []) [] := by
  decide

/-- C5 (amended): a `%R` line reached while the scanner is searching for a
table start (in particular, before any `%T`/`%F` pair) is discarded exactly
like any other non-`%T` line; the call behaves as if the line were absent. -/
theorem c5_orphan_row_skipped (r : Line) (ls : List Line) :
    next (('%' :: 'R' :: r) :: ls) = next ls :=
  next_skip _ _ (not_prefixT_of_second (by decide) r)

/-- C6 counterexample: a `%T` line with a single field makes `next` panic
(the `unwrap` of the missing name field), rather than returning an error
value to the caller. -/
theorem c6_counterexample : next [strLine "%T"] = ScanResult.crashed := by
  decide

/-- C6 (amended): when the selected `%T` line has no second tab-delimited
field, the call panics (aborts the process via `Option::unwrap`); no table
is yielded, but the failure is a panic, not a recoverable error value. -/
theorem c6_missing_name_crashes (tline : Line) (ls : List Line)
    (ht : tagT.isPrefixOf tline = true) (hn : (fields tline)[1]? = none) :
    next (tline :: ls) = ScanResult.crashed := by
  rw [next_found _ _ ht, hn]

theorem c6_witness :
    tagT.isPrefixOf (strLine "%T") = true ∧ (fields (strLine "%T"))[1]? = none ∧
    next [strLine "%T", strLine "x"] = ScanResult.crashed := by
  refine ⟨by decide, by decide, ?_⟩
  exact c6_missing_name_crashes (strLine "%T") [strLine "x"] (by decide) (by decide)

/-- C7 counterexample: the line `%T\t` is a recognized table-start line
(it begins with `%T`), yet the yielded table's name is the empty string. -/
theorem c7_counterexample :
    tagT.isPrefixOf (strLine "%T\t") = true ∧
    scanTables [strLine "%T\t", strLine "%F\ta"] =
      ScanOutcome.ok [Table.mk [] [strLine "a"] []] := by
  constructor
  · decide
  · rw [scanTables_of_table _ [] (Table.mk [] [strLine "a"] []) (by decide),
      scanTables_of_exhausted [] rfl]
    rfl

/-- C7 (amended): whenever a call yields a table, the table's name is
exactly the second tab-delimited field of the first line starting with
`%T` — which may be the empty string, so non-emptiness of the name holds
exactly when that field is non-empty. -/
theorem c7_name_is_second_field (ls : List Line) (t : Table) (rest : List Line)
    (h : next ls = ScanResult.table t rest) :
    ∃ tline, (ls.dropWhile (fun l => !(tagT.isPrefixOf l))).head? = some tline ∧
      tagT.isPrefixOf tline = true ∧ (fields tline)[1]? = some t.name := by
  unfold next at h
  split at h
  · exact absurd h (by simp)
  rename_i tline rest₁ hd
  have hpre : tagT.isPrefixOf tline = true := by
    have hfalse := dropWhile_head_false hd
    simpa using hfalse
  split at h
  · exact absurd h (by simp)
  rename_i name hn
  split at h
  · exact absurd h (by simp)
  rename_i hline rest₂
  refine ⟨tline, by rw [hd]; rfl, hpre, ?_⟩
  simp only [ScanResult.table.injEq] at h
  rw [hn, ← h.1]

theorem c7_witness :
    next [strLine "%T\tA", strLine "%F\tc"] =
      ScanResult.table (Table.mk (strLine "A") [strLine "c"] []) [] ∧
    ∃ tline,
      (([strLine "%T\tA", strLine "%F\tc"] : List Line).dropWhile
        (fun l => !(tagT.isPrefixOf l))).head? = some tline ∧
      tagT.isPrefixOf tline = true ∧
      (fields tline)[1]? = some (Table.mk (strLine "A") [strLine "c"] []).name :=
  ⟨by decide, c7_name_is_second_field [strLine "%T\tA", strLine "%F\tc"]
    (Table.mk (strLine "A") [strLine "c"] []) [] (by decide)⟩

/-- C8 counterexample: with a name containing a tab (`a\tb`), encoding and
rescanning does not reproduce the original triple — the decoded table's
name is just `a`, not the original `a\tb`. -/
theorem c8_counterexample :
    scanTables (encodeTable (strLine "a\tb") [] []) =
      ScanOutcome.ok [Table.mk (strLine "a") [] []] ∧
    strLine "a" ≠ strLine "a\tb" := by
  constructor
  · rw [scanTables_of_table _ [] (Table.mk (strLine "a") [] []) (by decide),
      scanTables_of_exhausted [] rfl]
    rfl
  · decide

theorem c8_witness :
    (tab ∉ strLine "NM") ∧ (∀ f ∈ [strLine "c1", strLine "c2"], tab ∉ f) ∧
    (∀ r ∈ [[strLine "v1"]], ∀ v ∈ r, tab ∉ v) ∧
    scanTables (encodeTable (strLine "NM") [strLine "c1", strLine "c2"] [[strLine "v1"]]) =
      ScanOutcome.ok [Table.mk (strLine "NM") [strLine "c1", strLine "c2"] [[strLine "v1"]]] := by
  refine ⟨by decide, by decide, by decide, ?_⟩
  have hres := c8_roundtrip_tabfree (strLine "NM") [strLine "c1", strLine "c2"]
    [[strLine "v1"]] (by decide) (by decide) (by decide)
  exact hres

/-- C9: within a table section, every `%R` row line contributes exactly its
own fields from index 1 onward, with no comparison against the header
width: the table is yielded without error whatever the field counts are. -/
theorem c9_rows_verbatim (tline hline stop : Line) (rls rest : List Line) (name : Line)
    (ht : tagT.isPrefixOf tline = true) (hn : (fields tline)[1]? = some name)
    (hr : ∀ l ∈ rls, tagR.isPrefixOf l = true) (hs : tagR.isPrefixOf stop = false) :
    next (tline :: hline :: (rls ++ stop :: rest)) =
      ScanResult.table (Table.mk name ((fields hline).drop 1)
        (rls.map (fun l => (fields l).drop 1))) rest :=
  next_group tline hline stop rls rest name ht hn hr hs

theorem c9_witness :
    tagT.isPrefixOf (strLine "%T\tN") = true ∧
    (fields (strLine "%T\tN"))[1]? = some (strLine "N") ∧
    (∀ l ∈ [strLine "%R\t1\t2\t3"], tagR.isPrefixOf l = true) ∧
    tagR.isPrefixOf (strLine "%E") = false ∧
    next (strLine "%T\tN" :: strLine "%F\tc1\tc2" ::
        ([strLine "%R\t1\t2\t3"] ++ strLine "%E" :: [])) =
      ScanResult.table (Table.mk (strLine "N")
        ((fields (strLine "%F\tc1\tc2")).drop 1)
        ([strLine "%R\t1\t2\t3"].map (fun l => (fields l).drop 1))) [] :=
  ⟨by decide, by decide, by decide, by decide,
    c9_rows_verbatim (strLine "%T\tN") (strLine "%F\tc1\tc2") (strLine "%E")
      [strLine "%R\t1\t2\t3"] [] (strLine "N")
      (by decide) (by decide) (by decide) (by decide)⟩

/-- C10: at the start of a call, every line not beginning with `%T` is
discarded unconditionally, at any position in the input — such lines never
produce an error and never terminate the scan by themselves (an input of
only such lines is clean exhaustion) — and recognition is by string prefix:
the search stops exactly at the first line whose first two characters are
`%T`, whatever follows them. -/
theorem c10_skip_any_nontable (pre ls : List Line)
    (h : ∀ l ∈ pre, tagT.isPrefixOf l = false) :
    next (pre ++ ls) = next ls ∧
    next pre = ScanResult.exhausted ∧
    ∀ tline ls₂, tagT.isPrefixOf tline = true →
      (pre ++ tline :: ls₂).dropWhile (fun l => !(tagT.isPrefixOf l)) = tline :: ls₂ := by
  refine ⟨next_append_skip pre ls h, ?_, ?_⟩
  · have h0 := next_append_skip pre [] h
    rw [List.append_nil] at h0
    exact h0
  · intro tline ls₂ htl
    rw [List.dropWhile_append_of_pos (fun l hl => by simp [h l hl]),
      List.dropWhile_cons, htl]
    simp

theorem c10_witness :
    (∀ l ∈ [strLine "ERMHDR\tx", strLine "%E"], tagT.isPrefixOf l = false) ∧
    next ([strLine "ERMHDR\tx", strLine "%E"] ++ [strLine "%TXT\tZ", strLine "%F\tq"]) =
      next [strLine "%TXT\tZ", strLine "%F\tq"] :=
  ⟨by decide, (c10_skip_any_nontable [strLine "ERMHDR\tx", strLine "%E"]
    [strLine "%TXT\tZ", strLine "%F\tq"] (by decide)).1⟩

end ScheduleParser
